import Mathlib

/-!
Verification development for the Gocal event/moon-phase core (util.go).

The four in-scope producers of util.go are shallowly embedded:

* computeMoonphasesJ - year-wide moon-phase map (keys YYYY-MM-DD strings);
* computeMoonphases  - month-scoped moon-phase map (keys day-of-month ints);
* readICSfile        - calendar-exchange importer (year filter, gDate records);
* readConfigurationfile / its pure core readConfigStore - XML configured-event
  expander (wildcard-month, month/day, weekday forms);
* getLocalizedWeekdayNames - localized weekday-name table with byte truncation.

External collaborators (the meeus astronomy library, the ics parser, the
monday locale formatter, the charset converter) are abstracted as function
parameters: the composite
JDToCalendar(phase_k(decimalYear(...)))
pipeline of library calls appears as a parameter
f : MoonKind -> Nat -> CalDate giving, for each phase kind and loop index,
the calendar triple of the estimated nearest phase occurrence; the charset
conversion appears as conv : String -> String (or as a byte-list producer
for the weekday-name table, whose output bytes are windows-1252).
Go maps are modelled as functions to Option, with insertion overwriting;
the iteration order of the Go map of phase functions in computeMoonphasesJ
is surfaced as an explicit order parameter (a permutation of the four kinds
for each day index), because Go map iteration order is unspecified.
-/

/-- The four moon phase kinds, keys of the moon_funcs map in util.go. -/
inductive MoonKind where
  | Full
  | New
  | First
  | Last
deriving DecidableEq, Repr

/-- The string label recorded in the moon maps for each phase kind. -/
def labelOf : MoonKind → String
  | .Full => "Full"
  | .New => "New"
  | .First => "First"
  | .Last => "Last"

/-- The four keys of the Go map moon_funcs (its key set, in source order). -/
def allKinds : List MoonKind := [.Full, .New, .First, .Last]

/-- Result of julian.JDToCalendar with the fractional day already truncated
by int(d), as every use site in util.go does. -/
structure CalDate where
  y : Int
  m : Int
  d : Int
deriving DecidableEq, Repr

/-- Zero padding of a natural to width w, as Go fmt "%0wd" does for
nonnegative arguments. -/
def natPad (w : Nat) (n : Nat) : String :=
  let s := toString n
  if s.length < w then String.mk (List.replicate (w - s.length) '0') ++ s else s

/-- Go fmt "%0wd" on an Int: zero padded to total width w, the sign counting
toward the width. -/
def pad0 (w : Nat) (n : Int) : String :=
  if n < 0 then "-" ++ natPad (w - 1) n.natAbs else natPad w n.toNat

/-- fmt.Sprintf("%04d-%02d-%02d", y, m, int(d)) from computeMoonphasesJ. -/
def dateKey (c : CalDate) : String :=
  pad0 4 c.y ++ "-" ++ pad0 2 c.m ++ "-" ++ pad0 2 c.d

/-- julian.LeapYearGregorian. -/
def leapYearGregorian (y : Int) : Bool :=
  (y % 4 == 0 && y % 100 != 0) || y % 400 == 0

/-- daysInYear as computed at the top of both moon-phase functions. -/
def daysInYear (yr : Int) : Nat :=
  if leapYearGregorian yr then 366 else 365

/-- The Go map[string]string moonJ, modelled as a lookup function. -/
def SMap : Type := String → Option String

/-- Go map assignment m[k] = v (overwrites). -/
def insertS (mp : SMap) (k v : String) : SMap :=
  fun x => if x = k then some v else mp x

/-- The empty Go map. -/
def emptyS : SMap := fun _ => none

/-- One iteration of the day loop of computeMoonphasesJ: for day index i the
Go code ranges over the moon_funcs map (order o i, unspecified by Go) and for
each kind records its label at the formatted date of the estimated nearest
occurrence. f is the composite collaborator
JDToCalendar(moon_funcs[k](decimalYear i)). -/
def stepJ (f : MoonKind → Nat → CalDate) (o : Nat → List MoonKind)
    (mp : SMap) (i : Nat) : SMap :=
  (o i).foldl (fun mp k => insertS mp (dateKey (f k i)) (labelOf k)) mp

/-- computeMoonphasesJ from util.go: for every day index 0 .. daysInYear-1
record, for each phase kind, the kind's label at the date of the estimated
nearest occurrence of that phase. -/
def computeMoonphasesJ (f : MoonKind → Nat → CalDate) (o : Nat → List MoonKind)
    (yr : Int) (m0 : SMap) : SMap :=
  (List.range (daysInYear yr)).foldl (stepJ f o) m0

/-- The Go map[int]string moon of computeMoonphases, as a lookup function. -/
def IMap : Type := Int → Option String

/-- Go map assignment moon[k] = v. -/
def insertI (mp : IMap) (k : Int) (v : String) : IMap :=
  fun x => if x = k then some v else mp x

/-- The empty month map. -/
def emptyI : IMap := fun _ => none

/-- One guarded write of computeMoonphases: compute the calendar triple of
the phase estimate for kind k at loop index i, and if it matches
(yr, mo, i) record the label at key int(d). -/
def phaseStep (f : MoonKind → Nat → CalDate) (mo yr : Int) (k : MoonKind)
    (i : Nat) (mp : IMap) : IMap :=
  if (f k i).y = yr ∧ (f k i).m = mo ∧ (f k i).d = (i : Int) then
    insertI mp (f k i).d (labelOf k)
  else mp

/-- One iteration of the 32-day loop of computeMoonphases, in the fixed
source order New, Full, First, Last. -/
def stepM (f : MoonKind → Nat → CalDate) (mo yr : Int)
    (mp : IMap) (i : Nat) : IMap :=
  phaseStep f mo yr .Last i
    (phaseStep f mo yr .First i
      (phaseStep f mo yr .Full i
        (phaseStep f mo yr .New i mp)))

/-- computeMoonphases from util.go (the month-scoped form). The composite
collaborator f k i models
JDToCalendar(moonphase_k(decimalYear(DayOfYearGregorian(yr, mo, da+i)))). -/
def computeMoonphases (f : MoonKind → Nat → CalDate) (mo yr : Int)
    (m0 : IMap) : IMap :=
  (List.range 32).foldl (stepM f mo yr) m0

/-- The truth of having matched the guard of computeMoonphases for kind k at
loop index i: the estimated phase date equals (yr, mo, i). -/
def guardOK (f : MoonKind → Nat → CalDate) (mo yr : Int)
    (k : MoonKind) (i : Nat) : Prop :=
  (f k i).y = yr ∧ (f k i).m = mo ∧ (f k i).d = (i : Int)

instance (f : MoonKind → Nat → CalDate) (mo yr : Int) (k : MoonKind)
    (i : Nat) : Decidable (guardOK f mo yr k i) := by
  unfold guardOK; infer_instance

example : dateKey ⟨2024, 1, 1⟩ = "2024-01-01" := by decide
example : dateKey ⟨-5, 11, 30⟩ = "-005-11-30" := by decide
example : daysInYear 2024 = 366 := by decide
example : daysInYear 2023 = 365 := by decide

/-- The gDate record. Modelled from the spec: the gDate struct declaration
itself lives outside util.go (the only source file available); the spec's
DayEvent description and the positional struct literals in util.go fix its
field order as month, day, text, weekday, image. Go's time.Month and the
int day are modelled as Int. -/
structure gDate where
  month : Int
  day : Int
  text : String
  weekday : String
  image : String
deriving DecidableEq, Repr

/-- A parsed calendar-exchange event as seen by the readICSfile drain loop:
its summary and the year/month/day of its start timestamp. The Go code
round-trips these through Format("2006"/"01"/"02") and ParseInt, which is
the identity on the date components of a time.Time. -/
structure ICSEvent where
  summary : String
  startY : Int
  startM : Int
  startD : Int
deriving DecidableEq, Repr

/-- readICSfile from util.go, over the stream of events the external ics
parser emits (in emission order) and the abstracted convertCP. Each event
whose start year equals the target year contributes one gDate with the
converted summary, empty weekday and empty image. -/
def readICSfile (conv : String → String) (events : List ICSEvent)
    (targetyear : Int) : List gDate :=
  events.foldl
    (fun eL e =>
      if targetyear == e.startY then
        eL ++ [⟨e.startM, e.startD, conv e.summary, "", ""⟩]
      else eL)
    []

/-- A Gocaldate entry of the XML configuration file: Date, Text and optional
Image (empty when absent), all strings, as xml.Unmarshal produces them. The
struct declaration lives outside util.go; fields are fixed by the field
accesses m.Date, m.Text, m.Image in util.go and the spec's description. -/
structure Gocaldate where
  date : String
  text : String
  image : String
deriving DecidableEq, Repr

/-- TelegramStore, the root of the unmarshalled XML configuration. -/
structure TelegramStore where
  gocaldate : List Gocaldate
deriving DecidableEq, Repr

/-- Digit accumulation for goParseInt32. -/
def parseDigitsAux : List Char → Nat → Option Nat
  | [], acc => some acc
  | c :: cs, acc =>
    if c.isDigit then parseDigitsAux cs (acc * 10 + (c.toNat - 48)) else none

/-- A nonempty all-digit run, or failure. -/
def parseDigits : List Char → Option Nat
  | [] => none
  | cs => parseDigitsAux cs 0

/-- strconv.ParseInt(s, 10, 32) as used in util.go with the error discarded:
a syntax error yields 0; an out-of-range value is clamped to the int32
bounds (ParseInt returns the clamped value alongside the range error). -/
def goParseInt32 (s : String) : Int :=
  let p : Bool × List Char :=
    match s.data with
    | '+' :: r => (false, r)
    | '-' :: r => (true, r)
    | r => (false, r)
  match parseDigits p.2 with
  | none => 0
  | some n =>
    let v : Int := if p.1 then -(n : Int) else (n : Int)
    if v > 2147483647 then 2147483647
    else if v < -2147483648 then -2147483648
    else v

/-- Splitting a character list at every occurrence of sep, accumulating the
current piece in reverse; the recursion behind goSplit. -/
def splitOnChar (sep : Char) : List Char → List Char → List (List Char)
  | [], acc => [acc.reverse]
  | c :: cs, acc =>
    if c = sep then acc.reverse :: splitOnChar sep cs []
    else splitOnChar sep cs (c :: acc)

/-- Go strings.Split(s, sep) for a one-character separator, as used on "/"
in readConfigurationfile. -/
def goSplit (s : String) (sep : Char) : List String :=
  (splitOnChar sep s.data []).map String.mk

/-- Go strings.Index(s, sub) != -1 for a one-character sub, i.e. the
contains test of readConfigurationfile. -/
def goContainsChar (s : String) (c : Char) : Bool :=
  s.data.contains c

/-- The per-entry body of the range loop of readConfigurationfile: classify
the Date field (wildcard-month, month/day, or weekday name) and emit the
corresponding gDate records in order. -/
def processGocaldate (conv : String → String) (m : Gocaldate) : List gDate :=
  if goContainsChar m.date '/' then
    if (goSplit m.date '/').headD "" = "*" then
      (List.range 12).map
        (fun j =>
          ⟨Int.ofNat j + 1, goParseInt32 (((goSplit m.date '/').get? 1).getD ""),
            conv m.text, "", m.image⟩)
    else
      [⟨goParseInt32 ((goSplit m.date '/').headD ""),
        goParseInt32 (((goSplit m.date '/').get? 1).getD ""),
        conv m.text, "", m.image⟩]
  else
    [⟨0, 0, conv m.text, m.date, m.image⟩]

/-- The full entry loop of readConfigurationfile over the unmarshalled
entries, appending each entry's records in order. -/
def readConfigStore (conv : String → String) : List Gocaldate → List gDate
  | [] => []
  | m :: rest => processGocaldate conv m ++ readConfigStore conv rest

/-- Outcome of a readConfigurationfile call: log.Fatalf terminates the run
(fatal), otherwise a list of records is returned. -/
inductive ConfigResult where
  | fatal (msg : String)
  | ok (eL : List gDate)
deriving DecidableEq, Repr

/-- readConfigurationfile from util.go. The file system is abstracted as
the Option String of the file's contents: none when os.Open or ReadAll
fails (the function silently returns the empty list), some data otherwise.
xml.Unmarshal is the abstract parser parameter; a parse error hits
log.Fatalf and terminates the run. -/
def readConfigurationfile (conv : String → String)
    (parseXML : String → Except String TelegramStore)
    (contents : Option String) : ConfigResult :=
  match contents with
  | none => .ok []
  | some data =>
    match parseXML data with
    | .error e =>
      .fatal ("# ERROR: when trying to unmarshal the XML configuration file: " ++ e)
    | .ok v => .ok (readConfigStore conv v.gocaldate)

example : goParseInt32 "15" = 15 := by decide
example : goParseInt32 "x" = 0 := by decide
example : goParseInt32 "-7" = -7 := by decide
example : goParseInt32 "99999999999" = 2147483647 := by decide
example : goSplit "*/15" '/' = ["*", "15"] := by decide
example : goSplit "a//b" '/' = ["a", "", "b"] := by decide
example : goSplit "" '/' = [""] := by decide
example : goContainsChar "*/15" '/' = true := by decide
example :
    processGocaldate id ⟨"3/7", "b", ""⟩ = [⟨3, 7, "b", "", ""⟩] := by decide
example :
    processGocaldate id ⟨"Monday", "c", "i"⟩ = [⟨0, 0, "c", "Monday", "i"⟩] := by
  decide

/-- A byte prefix s[0:n] of a Go string, which panics (none) when n exceeds
the byte length. -/
def goSliceTo (s : List UInt8) (n : Nat) : Option (List UInt8) :=
  if n ≤ s.length then some (s.take n) else none

/-- One weekday-name slot of getLocalizedWeekdayNames: the collaborator
composite wd i = bytes of convertCP(monday.Format(Jan (5+i) 2013, "Monday",
locale)), truncated to cutoff bytes when cutoff > 0 (panicking when the
cutoff exceeds the byte length). Weekday names are modelled as byte lists
because convertCP emits windows-1252 bytes and the truncation is a byte
slice. -/
def wdEntry (wd : Nat → List UInt8) (cutoff : Nat) (i : Nat) :
    Option (List UInt8) :=
  if 0 < cutoff then goSliceTo (wd i) cutoff else some (wd i)

/-- The i = 0..6 assignment loop of getLocalizedWeekdayNames; none as soon
as one truncation panics. -/
def collectWd (wd : Nat → List UInt8) (cutoff : Nat) :
    List Nat → Option (List (List UInt8))
  | [] => some []
  | i :: rest =>
    match wdEntry wd cutoff i, collectWd wd cutoff rest with
    | some e, some es => some (e :: es)
    | _, _ => none

/-- getLocalizedWeekdayNames from util.go: an 8-slot table whose slots
0 .. 6 are filled by the loop and whose slot 7 keeps the zero value of the
Go array (the empty string); none models the run dying in a slice panic. -/
def getLocalizedWeekdayNames (wd : Nat → List UInt8) (cutoff : Nat) :
    Option (List (List UInt8)) :=
  (collectWd wd cutoff (List.range 7)).map (fun l => l ++ [[]])

example :
    getLocalizedWeekdayNames (fun _ => [83, 97, 116]) 2 =
      some [[83, 97], [83, 97], [83, 97], [83, 97], [83, 97], [83, 97],
        [83, 97], []] := by decide

/-- A date-addressed record in the sense of the spec's DayEvent invariant:
month in 1..12, day in 1..31, empty weekday. -/
def DateAddressed (g : gDate) : Prop :=
  1 ≤ g.month ∧ g.month ≤ 12 ∧ 1 ≤ g.day ∧ g.day ≤ 31 ∧ g.weekday = ""

/-- A weekday-addressed record in the sense of the spec's DayEvent
invariant: month 0, day 0, nonempty weekday. -/
def WeekdayAddressed (g : gDate) : Prop :=
  g.month = 0 ∧ g.day = 0 ∧ g.weekday ≠ ""

/-- The two-shape invariant claimed for every produced record. -/
def WellShaped (g : gDate) : Prop := DateAddressed g ∨ WeekdayAddressed g

instance (g : gDate) : Decidable (DateAddressed g) := by
  unfold DateAddressed; infer_instance

instance (g : gDate) : Decidable (WeekdayAddressed g) := by
  unfold WeekdayAddressed; infer_instance

instance (g : gDate) : Decidable (WellShaped g) := by
  unfold WellShaped; infer_instance

/-- Well-formedness of a configured entry, mirroring the branch structure
of the expander: a wildcard entry's day component parses into 1..31, a
month/day entry's components parse into 1..12 and 1..31, and a weekday
entry's Date is nonempty. Entries outside this set drive the expander's
output outside the two-shape invariant. -/
def GoodEntry (m : Gocaldate) : Prop :=
  if goContainsChar m.date '/' then
    if (goSplit m.date '/').headD "" = "*" then
      1 ≤ goParseInt32 (((goSplit m.date '/').get? 1).getD "") ∧
        goParseInt32 (((goSplit m.date '/').get? 1).getD "") ≤ 31
    else
      (1 ≤ goParseInt32 ((goSplit m.date '/').headD "") ∧
        goParseInt32 ((goSplit m.date '/').headD "") ≤ 12) ∧
      (1 ≤ goParseInt32 (((goSplit m.date '/').get? 1).getD "") ∧
        goParseInt32 (((goSplit m.date '/').get? 1).getD "") ≤ 31)
  else m.date ≠ ""

instance (m : Gocaldate) : Decidable (GoodEntry m) := by
  unfold GoodEntry; infer_instance

/-- Insertion of one key-value pair, the uncurried form of insertS used to
reason about Go map range order. -/
def insPair (mp : SMap) (p : String × String) : SMap :=
  insertS mp p.1 p.2

/-- The importer's drain loop, written as filter-then-map: an event
contributes exactly when its start year equals the target year, in stream
order. Shared characterization of readICSfile. -/
theorem readICSfile_eq (conv : String → String) (events : List ICSEvent)
    (ty : Int) :
    readICSfile conv events ty =
      (events.filter (fun e => ty == e.startY)).map
        (fun e => ⟨e.startM, e.startD, conv e.summary, "", ""⟩) := by
  have aux : ∀ (l : List ICSEvent) (acc : List gDate),
      l.foldl
        (fun eL e =>
          if ty == e.startY then
            eL ++ [⟨e.startM, e.startD, conv e.summary, "", ""⟩]
          else eL) acc =
        acc ++ (l.filter (fun e => ty == e.startY)).map
          (fun e => ⟨e.startM, e.startD, conv e.summary, "", ""⟩) := by
    intro l
    induction l with
    | nil => intro acc; simp
    | cons e t ih =>
      intro acc
      rw [List.foldl_cons, List.filter_cons]
      by_cases h : (ty == e.startY) = true
      · rw [if_pos h, if_pos h, List.map_cons, ih, List.append_assoc]
        rfl
      · rw [if_neg h, if_neg h, ih]
  have base : readICSfile conv events ty =
      events.foldl
        (fun eL e =>
          if ty == e.startY then
            eL ++ [⟨e.startM, e.startD, conv e.summary, "", ""⟩]
          else eL) [] := rfl
  rw [base, aux events []]
  rfl

/-- Claim C2: readICSfile includes exactly those parsed events whose start
year equals the target year, in stream order, each record carrying the
month and day of the event's start timestamp, the encoding-converted
summary, and empty weekday and image fields. -/
theorem c2_importer_year_filter (conv : String → String)
    (events : List ICSEvent) (ty : Int) :
    readICSfile conv events ty =
      (events.filter (fun e => ty == e.startY)).map
        (fun e => ⟨e.startM, e.startD, conv e.summary, "", ""⟩) :=
  readICSfile_eq conv events ty

/-- Claim C3: a configured entry whose Date splits on the slash as the
wildcard form followed by a day string expands to exactly 12 records, one
per month 1 through 12, all with the same parsed day, the same converted
text and the same image. -/
theorem c3_wildcard_expansion (conv : String → String) (m : Gocaldate)
    (ds : String)
    (h1 : goContainsChar m.date '/' = true)
    (h2 : goSplit m.date '/' = ["*", ds]) :
    readConfigStore conv [m] =
      (List.range 12).map
        (fun j => ⟨Int.ofNat j + 1, goParseInt32 ds, conv m.text, "", m.image⟩) := by
  show processGocaldate conv m ++ readConfigStore conv [] = _
  rw [show readConfigStore conv [] = [] from rfl, List.append_nil]
  unfold processGocaldate
  rw [h2, if_pos h1, if_pos (show (["*", ds].headD "") = "*" from rfl)]
  rfl

/-- Witness for C3: the entry with Date "*/15" expands to the 12 months
with day 15. -/
theorem c3_wildcard_expansion_witness :
    readConfigStore id [⟨"*/15", "Pay", "img"⟩] =
      (List.range 12).map (fun j => ⟨Int.ofNat j + 1, 15, "Pay", "", "img"⟩) := by
  have h := c3_wildcard_expansion id ⟨"*/15", "Pay", "img"⟩ "15"
    (by decide) (by decide)
  rw [h]
  decide

/-- Claim C6: when the configured-event file cannot be opened or read the
expander silently returns the empty list, while a parse error of the
file's contents terminates the run fatally. -/
theorem c6_error_asymmetry (conv : String → String)
    (parseXML : String → Except String TelegramStore) (data e : String)
    (h : parseXML data = .error e) :
    readConfigurationfile conv parseXML none = .ok [] ∧
    readConfigurationfile conv parseXML (some data) =
      .fatal ("# ERROR: when trying to unmarshal the XML configuration file: "
        ++ e) :=
  ⟨rfl, by simp [readConfigurationfile, h]⟩

/-- Witness for C6 at a concrete failing parser and input. -/
theorem c6_error_asymmetry_witness :
    readConfigurationfile id (fun _ => .error "bad") none = .ok [] ∧
    readConfigurationfile id (fun _ => .error "bad") (some "not xml") =
      .fatal ("# ERROR: when trying to unmarshal the XML configuration file: "
        ++ "bad") :=
  c6_error_asymmetry id (fun _ => .error "bad") "not xml" "bad" rfl

/-- Claim C7 (amended): when no truncation panics, the weekday table has 8
slots, slots 0 through 6 hold the (possibly truncated) localized names in
order, and slot 7 keeps the zero value, the empty string. -/
theorem c7_weekday_table (wd : Nat → List UInt8) (cutoff : Nat)
    (e0 e1 e2 e3 e4 e5 e6 : List UInt8)
    (h0 : wdEntry wd cutoff 0 = some e0)
    (h1 : wdEntry wd cutoff 1 = some e1)
    (h2 : wdEntry wd cutoff 2 = some e2)
    (h3 : wdEntry wd cutoff 3 = some e3)
    (h4 : wdEntry wd cutoff 4 = some e4)
    (h5 : wdEntry wd cutoff 5 = some e5)
    (h6 : wdEntry wd cutoff 6 = some e6) :
    getLocalizedWeekdayNames wd cutoff =
      some [e0, e1, e2, e3, e4, e5, e6, []] := by
  unfold getLocalizedWeekdayNames
  rw [show List.range 7 = [0, 1, 2, 3, 4, 5, 6] from by decide]
  simp [collectWd, h0, h1, h2, h3, h4, h5, h6]

/-- Witness for C7: with a constant three-byte collaborator name and no
cutoff, slots 0 through 6 carry the name and slot 7 is empty. -/
theorem c7_weekday_table_witness :
    getLocalizedWeekdayNames (fun _ => [83, 97, 116]) 0 =
      some [[83, 97, 116], [83, 97, 116], [83, 97, 116], [83, 97, 116],
        [83, 97, 116], [83, 97, 116], [83, 97, 116], []] :=
  c7_weekday_table (fun _ => [83, 97, 116]) 0 _ _ _ _ _ _ _
    rfl rfl rfl rfl rfl rfl rfl

/-- Counterexample to C7 as stated: for a nonempty localized name the
produced table does not have an empty slot 0 with slots 1 through 7
populated; slot 0 is populated and slot 7 is empty. -/
theorem c7_claimed_layout_false :
    ¬ (∃ L, getLocalizedWeekdayNames (fun _ => [83]) 0 = some L ∧
        L.headD [] = [] ∧ ∀ i, 1 ≤ i → i ≤ 7 → L.getD i [] ≠ []) := by
  intro h
  obtain ⟨L, hL, hhead, -⟩ := h
  have hval : getLocalizedWeekdayNames (fun _ => [83]) 0 =
      some [[83], [83], [83], [83], [83], [83], [83], []] := by decide
  rw [hval] at hL
  have hLeq : L = [[83], [83], [83], [83], [83], [83], [83], []] :=
    (Option.some.inj hL).symm
  subst hLeq
  exact absurd hhead (by decide)

/-- Claim C10: the byte-slice truncation of getLocalizedWeekdayNames is
unguarded, so a cutoff larger than a name's byte length makes the call
panic instead of returning a table: here a three-byte name with cutoff 10. -/
theorem c10_truncation_panics :
    getLocalizedWeekdayNames (fun _ => [83, 97, 116]) 10 = none := by
  decide

/-- A write of computeMoonphases at loop index i never touches a key other
than i: the guard forces the written key int(d) to equal i. -/
theorem phaseStep_other {f : MoonKind → Nat → CalDate} {mo yr : Int}
    {k : MoonKind} {i : Nat} {mp : IMap} {x : Int} (hx : x ≠ (i : Int)) :
    phaseStep f mo yr k i mp x = mp x := by
  unfold phaseStep
  by_cases h : (f k i).y = yr ∧ (f k i).m = mo ∧ (f k i).d = (i : Int)
  · rw [if_pos h]
    show (if x = (f k i).d then some (labelOf k) else mp x) = mp x
    rw [h.2.2, if_neg hx]
  · rw [if_neg h]

/-- One whole iteration of the 32-day loop leaves every key other than its
index alone. -/
theorem stepM_other {f : MoonKind → Nat → CalDate} {mo yr : Int} {mp : IMap}
    {i : Nat} {x : Int} (hx : x ≠ (i : Int)) :
    stepM f mo yr mp i x = mp x := by
  unfold stepM
  rw [phaseStep_other hx, phaseStep_other hx, phaseStep_other hx,
    phaseStep_other hx]

/-- A write whose guard cannot fire (the estimated day differs from the
loop index) leaves the map unchanged. -/
theorem phaseStep_nofire {f : MoonKind → Nat → CalDate} {mo yr : Int}
    {k : MoonKind} {i : Nat} {mp : IMap} (h : (f k i).d ≠ (i : Int)) :
    phaseStep f mo yr k i mp = mp := by
  unfold phaseStep
  rw [if_neg]
  intro hg
  exact h hg.2.2

/-- When no phase estimate matches the loop index, the whole iteration is
the identity. -/
theorem stepM_nofire {f : MoonKind → Nat → CalDate} {mo yr : Int} {mp : IMap}
    {i : Nat} (h : ∀ k, (f k i).d ≠ (i : Int)) :
    stepM f mo yr mp i = mp := by
  unfold stepM
  rw [phaseStep_nofire (h .New), phaseStep_nofire (h .Full),
    phaseStep_nofire (h .First), phaseStep_nofire (h .Last)]

/-- Folding steps that each preserve the value at x preserves the value
at x. -/
theorem foldl_preserve_at (step : IMap → Nat → IMap) (x : Int) :
    ∀ (l : List Nat) (m : IMap),
      (∀ mp j, j ∈ l → step mp j x = mp x) → (l.foldl step m) x = m x := by
  intro l
  induction l with
  | nil => intro m _; rfl
  | cons a t ih =>
    intro m h
    rw [List.foldl_cons,
      ih (step m a) (fun mp j hj => h mp j (List.mem_cons_of_mem a hj))]
    exact h m a (List.mem_cons_self a t)

/-- At its own index a single guarded write records the kind's label
exactly when its guard fires. -/
theorem phaseStep_self (f : MoonKind → Nat → CalDate) (mo yr : Int)
    (k : MoonKind) (i : Nat) (mp : IMap) :
    phaseStep f mo yr k i mp (i : Int) =
      if guardOK f mo yr k i then some (labelOf k) else mp (i : Int) := by
  unfold phaseStep guardOK
  by_cases h : (f k i).y = yr ∧ (f k i).m = mo ∧ (f k i).d = (i : Int)
  · rw [if_pos h, if_pos h]
    show (if (i : Int) = (f k i).d then some (labelOf k) else mp (i : Int)) = _
    rw [h.2.2, if_pos rfl]
  · rw [if_neg h, if_neg h]

/-- One whole iteration at its own index: the four guards are tested in
source order New, Full, First, Last, each later write overwriting the
earlier ones, so the Last guard has priority. -/
theorem stepM_self (f : MoonKind → Nat → CalDate) (mo yr : Int) (mp : IMap)
    (i : Nat) :
    stepM f mo yr mp i (i : Int) =
      if guardOK f mo yr .Last i then some "Last"
      else if guardOK f mo yr .First i then some "First"
      else if guardOK f mo yr .Full i then some "Full"
      else if guardOK f mo yr .New i then some "New"
      else mp (i : Int) := by
  unfold stepM
  rw [phaseStep_self]
  by_cases hL : guardOK f mo yr .Last i
  · rw [if_pos hL, if_pos hL]
    rfl
  · rw [if_neg hL, if_neg hL, phaseStep_self]
    by_cases hF : guardOK f mo yr .First i
    · rw [if_pos hF, if_pos hF]
      rfl
    · rw [if_neg hF, if_neg hF, phaseStep_self]
      by_cases hFu : guardOK f mo yr .Full i
      · rw [if_pos hFu, if_pos hFu]
        rfl
      · rw [if_neg hFu, if_neg hFu, phaseStep_self]
        rfl

/-- Claim C4: in computeMoonphases the four phase functions are evaluated
in the fixed order New, Full, First, Last for each loop index, a later
matching phase overwriting an earlier one at the shared day key, so Last
wins on any collision: the final value at key i is determined by the
guards in reverse evaluation order. -/
theorem c4_fixed_order_last_wins (f : MoonKind → Nat → CalDate) (mo yr : Int)
    (m0 : IMap) (i : Nat) (hi : i < 32) :
    computeMoonphases f mo yr m0 (i : Int) =
      if guardOK f mo yr .Last i then some "Last"
      else if guardOK f mo yr .First i then some "First"
      else if guardOK f mo yr .Full i then some "Full"
      else if guardOK f mo yr .New i then some "New"
      else m0 (i : Int) := by
  unfold computeMoonphases
  have hsplit : List.range 32 = List.range' 0 i ++ List.range' i (32 - i) := by
    rw [List.range_eq_range']
    have happ := List.range'_append_1 0 i (32 - i)
    rw [Nat.zero_add] at happ
    rw [happ]
    congr 1
    omega
  rw [hsplit, show 32 - i = (31 - i) + 1 from by omega, List.range'_succ,
    List.foldl_append, List.foldl_cons]
  rw [foldl_preserve_at (stepM f mo yr) (i : Int) _ _ ?side]
  case side =>
    intro mp j hj
    have hj' := List.mem_range'_1.mp hj
    exact stepM_other (by omega)
  rw [stepM_self]
  rw [show (List.range' 0 i).foldl (stepM f mo yr) m0 (i : Int) = m0 (i : Int)
    from foldl_preserve_at (stepM f mo yr) (i : Int) _ _ ?head]
  case head =>
    intro mp j hj
    have hj' := List.mem_range'_1.mp hj
    exact stepM_other (by omega)

/-- Witness for C4: a collaborator whose estimates make all four guards
fire at index 5 — the recorded label is Last. -/
theorem c4_fixed_order_last_wins_witness :
    computeMoonphases (fun _ _ => ⟨7, 3, 5⟩) 3 7 emptyI 5 = some "Last" := by
  have h := c4_fixed_order_last_wins (fun _ _ => ⟨7, 3, 5⟩) 3 7 emptyI 5
    (by decide)
  have h5 : ((5 : Nat) : Int) = (5 : Int) := rfl
  rw [h5] at h
  rw [h, if_pos (show guardOK (fun _ _ => (⟨7, 3, 5⟩ : CalDate)) 3 7 .Last 5
    from by decide)]

/-- Claim C9: with any calendar conversion whose day component is at least
1 (as julian.JDToCalendar's is), the month map of computeMoonphases never
holds a key outside 1..31. -/
theorem c9_keys_in_range (f : MoonKind → Nat → CalDate) (mo yr : Int)
    (hd : ∀ k i, 1 ≤ (f k i).d) (x : Int) (hx : x < 1 ∨ 31 < x) :
    computeMoonphases f mo yr emptyI x = none := by
  unfold computeMoonphases
  rw [foldl_preserve_at (stepM f mo yr) x _ emptyI ?pres]
  · rfl
  case pres =>
    intro mp j hj
    have hj32 : j < 32 := List.mem_range.mp hj
    by_cases hxy : x = (j : Int)
    · rcases hx with hlt | hgt
      · have hj0 : j = 0 := by omega
        subst hj0
        rw [stepM_nofire]
        intro k hEq
        have := hd k 0
        omega
      · exact absurd hxy (by omega)
    · exact stepM_other hxy

/-- Witness for C9: a collaborator with day component 1 and the out-of-range
key 32. -/
theorem c9_keys_in_range_witness :
    computeMoonphases (fun _ _ => ⟨0, 0, 1⟩) 0 0 emptyI 32 = none :=
  c9_keys_in_range (fun _ _ => ⟨0, 0, 1⟩) 0 0 (fun _ _ => le_refl 1) 32
    (Or.inr (by decide))

/-- The insertion loop of one computeMoonphasesJ day writes only phase
labels, so it preserves the invariant that all stored values satisfy a
predicate holding of every label. -/
theorem foldl_ins_vals (f : MoonKind → Nat → CalDate) (i : Nat)
    (P : String → Prop) (hP : ∀ k, P (labelOf k)) :
    ∀ (ks : List MoonKind) (mp : SMap),
      (∀ s v, mp s = some v → P v) →
      ∀ s v,
        (ks.foldl (fun mp k => insertS mp (dateKey (f k i)) (labelOf k)) mp) s
          = some v → P v := by
  intro ks
  induction ks with
  | nil => intro mp hmp; exact hmp
  | cons k t ih =>
    intro mp hmp
    rw [List.foldl_cons]
    apply ih
    intro s v hv
    unfold insertS at hv
    by_cases hs : s = dateKey (f k i)
    · rw [if_pos hs] at hv
      injection hv with hv2
      rw [← hv2]
      exact hP k
    · rw [if_neg hs] at hv
      exact hmp s v hv

/-- The whole year loop of computeMoonphasesJ preserves the stored-values
invariant. -/
theorem computeJ_vals (f : MoonKind → Nat → CalDate) (o : Nat → List MoonKind)
    (P : String → Prop) (hP : ∀ k, P (labelOf k)) :
    ∀ (l : List Nat) (mp : SMap),
      (∀ s v, mp s = some v → P v) →
      ∀ s v, (l.foldl (stepJ f o) mp) s = some v → P v := by
  intro l
  induction l with
  | nil => intro mp hmp; exact hmp
  | cons a t ih =>
    intro mp hmp
    rw [List.foldl_cons]
    exact ih (stepJ f o mp a) (foldl_ins_vals f a P hP (o a) mp hmp)

/-- Claim C1 (amended): every value stored in the year-wide moon map is one
of the four phase labels. (The map does not hold an entry for every day of
the year: its keys are only the formatted dates of the estimated phase
occurrences, see the counterexample.) -/
theorem c1_values_are_labels (f : MoonKind → Nat → CalDate)
    (o : Nat → List MoonKind) (yr : Int) (k v : String)
    (h : computeMoonphasesJ f o yr emptyS k = some v) :
    v = "Full" ∨ v = "New" ∨ v = "First" ∨ v = "Last" := by
  have hP : ∀ mk : MoonKind,
      labelOf mk = "Full" ∨ labelOf mk = "New" ∨ labelOf mk = "First" ∨
        labelOf mk = "Last" := by
    intro mk
    cases mk
    · exact Or.inl rfl
    · exact Or.inr (Or.inl rfl)
    · exact Or.inr (Or.inr (Or.inl rfl))
    · exact Or.inr (Or.inr (Or.inr rfl))
  have base : ∀ s w, emptyS s = some w →
      (w = "Full" ∨ w = "New" ∨ w = "First" ∨ w = "Last") := by
    intro s w hw
    exact absurd hw (by simp [emptyS])
  exact computeJ_vals f o _ hP (List.range (daysInYear yr)) emptyS base k v h

/-- With a constant calendar collaborator every write of the year loop hits
the single key dateKey c, so any other key keeps its initial value. -/
theorem foldl_insconst_other (c : CalDate) (x : String) (hx : x ≠ dateKey c)
    (lab : Nat → MoonKind → String) :
    ∀ (ks : List MoonKind) (mp : SMap) (i : Nat),
      (ks.foldl (fun mp k => insertS mp (dateKey c) (lab i k)) mp) x = mp x := by
  intro ks
  induction ks with
  | nil => intro mp i; rfl
  | cons k t ih =>
    intro mp i
    rw [List.foldl_cons, ih]
    show (if x = dateKey c then some (lab i k) else mp x) = mp x
    rw [if_neg hx]

/-- computeMoonphasesJ with a constant calendar collaborator leaves every
key other than the constant's date untouched. -/
theorem computeJ_const_other (c : CalDate) (x : String) (hx : x ≠ dateKey c)
    (o : Nat → List MoonKind) (yr : Int) (m0 : SMap) :
    computeMoonphasesJ (fun _ _ => c) o yr m0 x = m0 x := by
  have aux : ∀ (l : List Nat) (mp : SMap),
      (l.foldl (stepJ (fun _ _ => c) o) mp) x = mp x := by
    intro l
    induction l with
    | nil => intro mp; rfl
    | cons a t ih =>
      intro mp
      rw [List.foldl_cons, ih]
      exact foldl_insconst_other c x hx (fun _ k => labelOf k) (o a) mp a
  exact aux _ m0

/-- Counterexample to C1 as stated: the year map records keys only at the
estimated phase dates, not for every day of the year. With estimates whose
date is 2024-01-01 the 2024 map has no entry at the day 2024-01-02 of the
(leap) year 2024. -/
theorem c1_not_every_day :
    computeMoonphasesJ (fun _ _ => ⟨2024, 1, 1⟩) (fun _ => allKinds) 2024
      emptyS "2024-01-02" = none := by
  rw [computeJ_const_other ⟨2024, 1, 1⟩ "2024-01-02" (by decide)
    (fun _ => allKinds) 2024 emptyS]
  rfl

/-- A nonempty year loop over a constant collaborator that only visits the
Last phase records the Last label at the constant's date. -/
theorem computeJ_constLast_at (c : CalDate) :
    ∀ (l : List Nat) (mp : SMap), l ≠ [] →
      (l.foldl (stepJ (fun _ _ => c) (fun _ => [MoonKind.Last])) mp)
        (dateKey c) = some "Last" := by
  intro l
  induction l with
  | nil => intro mp h; exact absurd rfl h
  | cons a t ih =>
    intro mp _
    rw [List.foldl_cons]
    cases t with
    | nil =>
      show (if dateKey c = dateKey c then some (labelOf MoonKind.Last)
        else mp (dateKey c)) = some "Last"
      rw [if_pos rfl]
      rfl
    | cons b t2 =>
      exact ih _ (List.cons_ne_nil b t2)

/-- Witness for C1: a concrete instantiation whose map holds the value
Last at the constant estimate's date, on which the theorem fires. -/
theorem c1_values_are_labels_witness :
    "Last" = "Full" ∨ "Last" = "New" ∨ "Last" = "First" ∨ "Last" = "Last" := by
  apply c1_values_are_labels (fun _ _ => ⟨2024, 1, 1⟩)
    (fun _ => [MoonKind.Last]) 2024 "2024-01-01" "Last"
  have h := computeJ_constLast_at ⟨2024, 1, 1⟩
    (List.range (daysInYear 2024)) emptyS (by decide)
  rw [show dateKey ⟨2024, 1, 1⟩ = "2024-01-01" from by decide] at h
  exact h

/-- A well-formed configured entry only expands into records that satisfy
the two-shape invariant. -/
theorem processGood (conv : String → String) (m : Gocaldate)
    (hm : GoodEntry m) : ∀ g ∈ processGocaldate conv m, WellShaped g := by
  intro g hg
  unfold processGocaldate at hg
  unfold GoodEntry at hm
  by_cases hc : goContainsChar m.date '/' = true
  · rw [if_pos hc] at hg hm
    by_cases hstar : (goSplit m.date '/').headD "" = "*"
    · rw [if_pos hstar] at hg hm
      obtain ⟨j, hj, rfl⟩ := List.mem_map.mp hg
      have hj12 : j < 12 := List.mem_range.mp hj
      unfold WellShaped
      refine Or.inl ?_
      unfold DateAddressed
      exact ⟨by show (1 : Int) ≤ Int.ofNat j + 1; rw [Int.ofNat_eq_natCast]; omega,
        by show Int.ofNat j + 1 ≤ (12 : Int); rw [Int.ofNat_eq_natCast]; omega,
        hm.1, hm.2, rfl⟩
    · rw [if_neg hstar] at hg hm
      rw [List.mem_singleton] at hg
      subst hg
      unfold WellShaped
      refine Or.inl ?_
      unfold DateAddressed
      exact ⟨hm.1.1, hm.1.2, hm.2.1, hm.2.2, rfl⟩
  · rw [if_neg hc] at hg hm
    rw [List.mem_singleton] at hg
    subst hg
    unfold WellShaped
    refine Or.inr ?_
    unfold WeekdayAddressed
    exact ⟨rfl, rfl, hm⟩

/-- The expander keeps the two-shape invariant on any list of well-formed
entries. -/
theorem configWellShaped (conv : String → String) :
    ∀ (entries : List Gocaldate), (∀ m ∈ entries, GoodEntry m) →
      ∀ g ∈ readConfigStore conv entries, WellShaped g := by
  intro entries
  induction entries with
  | nil =>
    intro _ g hg
    exact absurd hg (by simp [readConfigStore])
  | cons m t ih =>
    intro hv g hg
    have hg2 : g ∈ processGocaldate conv m ++ readConfigStore conv t := hg
    rcases List.mem_append.mp hg2 with h1 | h2
    · exact processGood conv m (hv m (List.mem_cons_self m t)) g h1
    · exact ih (fun m2 hm2 => hv m2 (List.mem_cons_of_mem m hm2)) g h2

/-- The importer produces only date-addressed records when the event start
dates carry valid month and day components, as Go time.Time values do. -/
theorem icsWellShaped (conv : String → String) (events : List ICSEvent)
    (ty : Int)
    (he : ∀ e ∈ events,
      (1 ≤ e.startM ∧ e.startM ≤ 12) ∧ (1 ≤ e.startD ∧ e.startD ≤ 31)) :
    ∀ g ∈ readICSfile conv events ty, WellShaped g := by
  intro g hg
  rw [readICSfile_eq] at hg
  obtain ⟨e, he2, rfl⟩ := List.mem_map.mp hg
  have he3 := he e (List.mem_of_mem_filter he2)
  unfold WellShaped
  refine Or.inl ?_
  unfold DateAddressed
  exact ⟨he3.1.1, he3.1.2, he3.2.1, he3.2.2, rfl⟩

/-- Claim C5 (amended): every record the expander produces from well-formed
configured entries, and every record the importer produces from events with
valid start dates, is either date-addressed or weekday-addressed; entries
with out-of-range or unparsable components escape both shapes (see the
counterexample). -/
theorem c5_two_shapes (conv : String → String) (entries : List Gocaldate)
    (events : List ICSEvent) (ty : Int)
    (hv : ∀ m ∈ entries, GoodEntry m)
    (he : ∀ e ∈ events,
      (1 ≤ e.startM ∧ e.startM ≤ 12) ∧ (1 ≤ e.startD ∧ e.startD ≤ 31)) :
    (∀ g ∈ readConfigStore conv entries, WellShaped g) ∧
    (∀ g ∈ readICSfile conv events ty, WellShaped g) :=
  ⟨configWellShaped conv entries hv, icsWellShaped conv events ty he⟩

/-- Witness for C5 on one wildcard, one month/day and one weekday entry,
plus one imported event. -/
theorem c5_two_shapes_witness :
    (∀ g ∈ readConfigStore id
      [⟨"*/15", "a", "i"⟩, ⟨"3/7", "b", ""⟩, ⟨"Monday", "c", ""⟩],
      WellShaped g) ∧
    (∀ g ∈ readICSfile id [⟨"x", 2024, 5, 9⟩] 2024, WellShaped g) := by
  apply c5_two_shapes
  · intro m hm
    simp only [List.mem_cons, List.not_mem_nil, or_false] at hm
    rcases hm with rfl | rfl | rfl <;> decide
  · intro e he2
    simp only [List.mem_cons, List.not_mem_nil, or_false] at he2
    rcases he2 with rfl
    decide

/-- Counterexample to C5 as stated: the malformed entry with Date 0/0 makes
the expander emit a record with month 0, day 0 and empty weekday, which is
neither date-addressed nor weekday-addressed. -/
theorem c5_malformed_entry :
    readConfigStore id [⟨"0/0", "x", ""⟩] = [⟨0, 0, "x", "", ""⟩] ∧
    ¬ WellShaped ⟨0, 0, "x", "", ""⟩ := by
  constructor
  · decide
  · decide

/-- Two Go map writes to distinct keys commute. -/
theorem insertS_comm {k1 k2 : String} (h : k1 ≠ k2) (m : SMap)
    (v1 v2 : String) :
    insertS (insertS m k1 v1) k2 v2 = insertS (insertS m k2 v2) k1 v1 := by
  funext x
  by_cases h1 : x = k1
  · have h2 : ¬ x = k2 := fun hx => h (h1.symm.trans hx)
    show (if x = k2 then some v2 else if x = k1 then some v1 else m x) =
      (if x = k1 then some v1 else if x = k2 then some v2 else m x)
    rw [if_neg h2, if_pos h1, if_pos h1]
  · by_cases h2 : x = k2
    · show (if x = k2 then some v2 else if x = k1 then some v1 else m x) =
        (if x = k1 then some v1 else if x = k2 then some v2 else m x)
      rw [if_pos h2, if_neg h1, if_pos h2]
    · show (if x = k2 then some v2 else if x = k1 then some v1 else m x) =
        (if x = k1 then some v1 else if x = k2 then some v2 else m x)
      rw [if_neg h2, if_neg h1, if_neg h1, if_neg h2]

/-- Writing a list of pairs with pairwise distinct keys into a Go map gives
the same map under any permutation of the write order. -/
theorem foldl_insPair_perm :
    ∀ {l1 l2 : List (String × String)}, l1.Perm l2 →
      (l1.map Prod.fst).Nodup →
      ∀ m : SMap, l1.foldl insPair m = l2.foldl insPair m := by
  intro l1 l2 p
  induction p with
  | nil => intro _ m; rfl
  | cons x p ih =>
    intro nd m
    rw [List.foldl_cons, List.foldl_cons]
    rw [List.map_cons] at nd
    exact ih nd.of_cons (insPair m x)
  | swap x y t =>
    intro nd m
    rw [List.foldl_cons, List.foldl_cons, List.foldl_cons, List.foldl_cons]
    have hk : y.1 ≠ x.1 := by
      rw [List.map_cons, List.map_cons] at nd
      have hcons := List.nodup_cons.mp nd
      intro hEq
      exact hcons.1 (by rw [hEq]; exact List.mem_cons_self x.1 _)
    rw [show insPair (insPair m y) x = insPair (insPair m x) y from
      insertS_comm hk m y.2 x.2]
  | trans p1 p2 ih1 ih2 =>
    intro nd m
    rw [ih1 nd m]
    exact ih2 ((p1.map Prod.fst).nodup_iff.mp nd) m

/-- One day of the year loop, rewritten as pair insertions in the given
range order. -/
theorem stepJ_eq_pairs (f : MoonKind → Nat → CalDate)
    (o : Nat → List MoonKind) (mp : SMap) (i : Nat) :
    stepJ f o mp i =
      ((o i).map (fun k => (dateKey (f k i), labelOf k))).foldl insPair mp := by
  unfold stepJ
  rw [List.foldl_map]
  rfl

/-- One day of the year loop is independent of the Go map iteration order
provided the four phase estimates for that day have pairwise distinct date
keys. -/
theorem stepJ_order_eq (f : MoonKind → Nat → CalDate)
    (o1 o2 : Nat → List MoonKind) (i : Nat)
    (h1i : (o1 i).Perm allKinds) (h2i : (o2 i).Perm allKinds)
    (hnc : ∀ k k' : MoonKind, k ≠ k' → dateKey (f k i) ≠ dateKey (f k' i))
    (mp : SMap) :
    stepJ f o1 mp i = stepJ f o2 mp i := by
  rw [stepJ_eq_pairs, stepJ_eq_pairs]
  apply foldl_insPair_perm ((h1i.trans h2i.symm).map _)
  rw [List.map_map]
  apply List.Nodup.map_on
  · intro a ha b hb hEq
    by_contra hne
    exact hnc a b hne hEq
  · exact (h1i.nodup_iff).mpr (by decide)

/-- Folding pointwise equal step functions gives equal folds. -/
theorem foldl_step_congr {α β : Type _} (s1 s2 : β → α → β)
    (h : ∀ m i, s1 m i = s2 m i) :
    ∀ (l : List α) (m : β), l.foldl s1 m = l.foldl s2 m := by
  intro l
  induction l with
  | nil => intro m; rfl
  | cons a t ih =>
    intro m
    rw [List.foldl_cons, List.foldl_cons, h m a, ih]

/-- Claim C8: the year-wide moon map's only run-to-run variation is Go's
unspecified map iteration order; whenever, for every day index, the four
phase kinds estimate pairwise distinct date keys (true of real lunar
phases, which are about a week apart), any two iteration orders produce
content-equal maps, so repeated invocations with identical inputs agree.
The other producers are deterministic by construction in this embedding. -/
theorem c8_deterministic (f : MoonKind → Nat → CalDate)
    (o1 o2 : Nat → List MoonKind) (yr : Int)
    (h1 : ∀ i, (o1 i).Perm allKinds) (h2 : ∀ i, (o2 i).Perm allKinds)
    (hnc : ∀ i, ∀ k k' : MoonKind, k ≠ k' →
      dateKey (f k i) ≠ dateKey (f k' i)) :
    computeMoonphasesJ f o1 yr emptyS = computeMoonphasesJ f o2 yr emptyS := by
  unfold computeMoonphasesJ
  exact foldl_step_congr (stepJ f o1) (stepJ f o2)
    (fun mp i => stepJ_order_eq f o1 o2 i (h1 i) (h2 i) (hnc i) mp)
    (List.range (daysInYear yr)) emptyS

/-- Witness for C8: a collaborator giving the four kinds distinct years
(hence distinct keys), under two different iteration orders. -/
theorem c8_deterministic_witness :
    computeMoonphasesJ
      (fun k _ =>
        ⟨(match k with
          | MoonKind.Full => 1 | MoonKind.New => 2
          | MoonKind.First => 3 | MoonKind.Last => 4 : Int), 1, 1⟩)
      (fun _ => [MoonKind.Full, MoonKind.New, MoonKind.First, MoonKind.Last])
      1 emptyS =
    computeMoonphasesJ
      (fun k _ =>
        ⟨(match k with
          | MoonKind.Full => 1 | MoonKind.New => 2
          | MoonKind.First => 3 | MoonKind.Last => 4 : Int), 1, 1⟩)
      (fun _ => [MoonKind.New, MoonKind.Full, MoonKind.First, MoonKind.Last])
      1 emptyS := by
  apply c8_deterministic
  · intro i
    exact List.Perm.refl _
  · intro i
    exact List.Perm.swap MoonKind.Full MoonKind.New
      [MoonKind.First, MoonKind.Last]
  · intro i k k' hne
    cases k <;> cases k' <;> first
      | exact absurd rfl hne
      | decide
